import Mathlib

/-!
Shallow embedding of `src/macos/iphone_backup.py` (iPhone/Android media backup
tool) and proofs about its enumeration, transfer, verification and deletion
pipeline.

Conventions of the embedding:
* Python strings are Lean `String`s; character-level operations work on
  `String.data` (`List Char`), which matches Python's code-point semantics
  for the ASCII file names and extensions involved.
* The destination filesystem is a partial map `FS : String → Option Int`
  sending an absolute path to the byte length of the file stored there
  (`none` = no file).  `os.path.exists p and os.path.getsize p == n`
  becomes `fs p = some n`.
* Machine integers are `Int` (Python ints are unbounded, so no modular
  arithmetic is needed); wall-clock durations and throughput values are `ℚ`.
* Fallible I/O is passed in as explicit oracles: `shutil.disk_usage` becomes
  an `Option Int` (free bytes, `none` = the call raised), `os.path.getsize`
  during enumeration becomes an `Option Int` per item, the `adb shell stat`
  reply becomes an `Option String` per path, and the per-file transfer
  (`shutil.copy2` / `adb pull`) becomes a `FetchResult` oracle.
-/

/-- Python `str.lower()` restricted to the ASCII case mapping, which is all the
extension comparison in the source ever exercises. -/
def pyLower (s : String) : String :=
  ⟨s.data.map Char.toLower⟩

/-- Python `str.strip()`: remove leading and trailing whitespace. -/
def pyStrip (s : String) : String :=
  ⟨((s.data.dropWhile Char.isWhitespace).reverse.dropWhile Char.isWhitespace).reverse⟩

/-- Python `str.split(sep)` for a one-character separator, at the level of
character lists: all fields are kept, including empty ones. -/
def splitOnChar (sep : Char) : List Char → List (List Char)
  | [] => [[]]
  | c :: rest =>
    match splitOnChar sep rest with
    | [] => [[]]
    | h :: t => if c = sep then [] :: h :: t else (c :: h) :: t

/-- Python `os.path.join(a, b)` for POSIX paths as the script uses it: an
absolute second component replaces the first, otherwise a single `/` is
inserted unless `a` already ends in one. -/
def os_path_join (a b : String) : String :=
  if b.data.head? = some '/' then b
  else if a = "" then b
  else if a.data.getLast? = some '/' then a ++ b
  else a ++ "/" ++ b

/-- Python `os.path.basename(p)` for POSIX paths: everything after the last
`/` (possibly empty). -/
def os_path_basename (p : String) : String :=
  ⟨(p.data.reverse.takeWhile (fun c => c ≠ '/')).reverse⟩

/-- Index of the last `.` in a character list, if any. -/
def lastDotIndex : List Char → Option Nat
  | [] => none
  | c :: rest =>
    match lastDotIndex rest with
    | some i => some (i + 1)
    | none => if c = '.' then some 0 else none

/-- The extension component of Python `os.path.splitext(p)[1]` for a plain
file name (no `/`): the suffix starting at the last dot, provided some
character before that dot is not itself a dot (so `.bashrc` has no
extension). -/
def splitext_ext (p : String) : String :=
  let cs := p.data
  match lastDotIndex cs with
  | none => ""
  | some i => if (cs.take i).any (fun c => c ≠ '.') then ⟨cs.drop i⟩ else ""

/-- Decimal digit run as accepted by Python `int(...)` after the first digit:
single underscores may separate digits. `acc` is the value of the digits
already consumed. -/
def pyDigitsAux (acc : Nat) : List Char → Option Nat
  | [] => some acc
  | '_' :: d :: rest =>
    if d.isDigit then pyDigitsAux (10 * acc + (d.toNat - 48)) rest else none
  | '_' :: [] => none
  | c :: rest =>
    if c.isDigit then pyDigitsAux (10 * acc + (c.toNat - 48)) rest else none

/-- Nonempty digit run starting with a digit, Python `int(...)` style. -/
def pyDigitsFirst : List Char → Option Nat
  | [] => none
  | c :: rest => if c.isDigit then pyDigitsAux (c.toNat - 48) rest else none

/-- Python `int(s)` on an already-stripped string: optional sign followed by
a digit run (with optional single underscores); `none` models `ValueError`. -/
def pyInt? (s : String) : Option Int :=
  match s.data with
  | '+' :: rest => (pyDigitsFirst rest).map Int.ofNat
  | '-' :: rest => (pyDigitsFirst rest).map (fun n => -(n : Int))
  | rest => (pyDigitsFirst rest).map Int.ofNat

/-- Python `str.__lt__` on code points, via `String.data`: strict
lexicographic comparison.  This is the order `sorted(..., key=lambda x: x[1])`
sorts by. -/
def pyStrLt : List Char → List Char → Bool
  | [], [] => false
  | [], _ :: _ => true
  | _ :: _, [] => false
  | a :: as, b :: bs =>
    if a.toNat < b.toNat then true
    else if b.toNat < a.toNat then false
    else pyStrLt as bs

/-- Line 23: the fixed allow-list of media extensions,
`SUPPORTED_EXTENSIONS = ['.mov', '.mp4', '.avi', '.jpg', '.jpeg', '.png', '.heic']`. -/
def SUPPORTED_EXTENSIONS : List String :=
  [".mov", ".mp4", ".avi", ".jpg", ".jpeg", ".png", ".heic"]

/-- One entry of the `media_files` list: the `(source_path, file_name, size)`
tuple produced by `find_media_files` (a Candidate in the spec's terms). -/
structure Candidate where
  source_path : String
  file_name : String
  size : Int
deriving DecidableEq, Repr

/-- Destination-filesystem state: for each absolute path, `some n` when a file
of byte length `n` exists there, `none` otherwise. -/
def FS : Type := String → Option Int

/-- Point update of a filesystem state (the only write the tool performs is
to a single destination path). -/
def fsUpdate (fs : FS) (p : String) (v : Option Int) : FS :=
  fun q => if q = p then v else fs q

namespace DeviceBackup

/-- Lines 35-56, `DeviceBackup.check_disk_space`.  `free` is the result of
`shutil.disk_usage(self.destination).free` (`none` when the call raised).
Returns the boolean verdict together with the shortage magnitude in bytes
that the insufficient branch reports (`none` when no shortage is reported).
An exception in the space check yields `True` (assume sufficient). -/
def check_disk_space (free : Option Int) (required_bytes : Int) : Bool × Option Int :=
  match free with
  | some available_bytes =>
    if available_bytes < required_bytes then
      (false, some (required_bytes - available_bytes))
    else
      (true, none)
  | none => (true, none)

/-- Lines 66-87, `DeviceBackup.verify_files`: partition `files` into the
`verified` list of source paths (destination file exists with matching byte
length) and the `failed` list of file names, preserving catalog order. -/
def verify_files (destination : String) (fs : FS) : List Candidate → List String × List String
  | [] => ([], [])
  | c :: files =>
    let r := verify_files destination fs files
    if fs (os_path_join destination c.file_name) = some c.size then
      (c.source_path :: r.1, r.2)
    else
      (r.1, c.file_name :: r.2)

end DeviceBackup

/-- Comparison by destination key used by `sorted(media_files, key=lambda x: x[1])`:
`a` may precede `b` when `a.file_name` does not strictly exceed `b.file_name`
in code-point order. -/
def file_name_le (a b : Candidate) : Prop :=
  pyStrLt b.file_name.data a.file_name.data = false

instance : DecidableRel file_name_le := fun a b =>
  inferInstanceAs (Decidable (pyStrLt b.file_name.data a.file_name.data = false))

namespace iPhoneBackup

/-- One file yielded by the `os.walk(dcim_path)` loop of lines 162-171: the
directory `root`, the bare file name, and the result of `os.path.getsize`
on their join (`none` when it raised `OSError`). -/
structure WalkItem where
  root : String
  file : String
  size_result : Option Int
deriving DecidableEq, Repr

/-- Lines 149-173, `iPhoneBackup.find_media_files`, from the point where the
walk output is fixed: keep the items whose lowered extension is in
`SUPPORTED_EXTENSIONS` and whose size could be read, build the
`(full_path, file, size)` tuples, and sort them by file name (Python's
`sorted` is stable, modelled by the stable `List.insertionSort`). -/
def find_media_files (walk : List WalkItem) : List Candidate :=
  let media_files := walk.filterMap (fun w =>
    if pyLower (splitext_ext w.file) ∈ SUPPORTED_EXTENSIONS then
      match w.size_result with
      | some size => some ⟨os_path_join w.root w.file, w.file, size⟩
      | none => none
    else none)
  List.insertionSort file_name_le media_files

end iPhoneBackup

namespace AndroidBackup

/-- Lines 246-290, `AndroidBackup.find_media_files`, from the point where the
`adb shell find` call succeeded with output `stdout`.  `stat` maps a remote
path to the stdout of `adb shell stat -c %s "<path>"`, or `none` when that
call returned a nonzero code.  Lines are stripped, empty lines skipped, the
extension filter applied to the basename, and the size parsed with `int`;
a parse failure (`ValueError`) drops the item.  The result is sorted by
file name exactly as in the iPhone variant. -/
def find_media_files (stdout : String) (stat : String → Option String) : List Candidate :=
  let file_paths := (splitOnChar '\n' (pyStrip stdout).data).map (fun cs => pyStrip ⟨cs⟩)
  let media_files := file_paths.filterMap (fun file_path =>
    if file_path = "" then none
    else
      let file_name := os_path_basename file_path
      if pyLower (splitext_ext file_name) ∈ SUPPORTED_EXTENSIONS then
        match stat file_path with
        | some reply =>
          match pyInt? (pyStrip reply) with
          | some size => some ⟨file_path, file_name, size⟩
          | none => none
        | none => none
      else none)
  List.insertionSort file_name_le media_files

end AndroidBackup

/-- Per-candidate transfer outcome of the copy loop. -/
inductive TransferOutcome where
  | Skipped
  | Copied (speed : ℚ)
  | Failed
deriving DecidableEq, Repr

/-- Effect of one fetch attempt (`shutil.copy2` on iPhone, `adb pull` on
Android): whether it completed successfully, the destination entry it leaves
behind at the destination path, and how many bytes it wrote. -/
structure FetchResult where
  ok : Bool
  destAfter : Option Int
  bytes : Int
deriving Repr

/-- Lines 196-197 and 317-318: `size_mb = size / (1024 * 1024)` and
`speed_mbps = size_mb / elapsed if elapsed > 0 else 0`. -/
def speed_mbps (size : Int) (elapsed : ℚ) : ℚ :=
  let size_mb : ℚ := (size : ℚ) / (1024 * 1024)
  if 0 < elapsed then size_mb / elapsed else 0

/-- Result of a whole copy pass: final destination state, per-candidate
outcomes in catalog order, total bytes written, and the source paths on
which a fetch was attempted (in order). -/
structure CopyResult where
  fs : FS
  outcomes : List TransferOutcome
  bytesWritten : Int
  fetchCalls : List String

/-- Lines 175-204 (`iPhoneBackup.copy_files`) and 292-327
(`AndroidBackup.copy_files`), which differ only in the transport used for the
actual fetch; that transport is abstracted as the `fetch` oracle and the
wall-clock measurement as the `elapsed` oracle.  Per candidate: skip when the
destination file already exists with matching byte length, otherwise attempt
exactly one fetch; a successful fetch reports `Copied` with the computed
throughput, a failed one reports the error and the loop continues. -/
def copy_files (destination : String) (fetch : FS → Candidate → FetchResult)
    (elapsed : Candidate → ℚ) : FS → List Candidate → CopyResult
  | fs, [] => ⟨fs, [], 0, []⟩
  | fs, c :: files =>
    let dest_path := os_path_join destination c.file_name
    if fs dest_path = some c.size then
      let r := copy_files destination fetch elapsed fs files
      ⟨r.fs, TransferOutcome.Skipped :: r.outcomes, r.bytesWritten, r.fetchCalls⟩
    else
      let f := fetch fs c
      let fs1 := fsUpdate fs dest_path f.destAfter
      let outcome := if f.ok then TransferOutcome.Copied (speed_mbps c.size (elapsed c))
                     else TransferOutcome.Failed
      let r := copy_files destination fetch elapsed fs1 files
      ⟨r.fs, outcome :: r.outcomes, f.bytes + r.bytesWritten, c.source_path :: r.fetchCalls⟩

/-- Lines 206-215 and 329-344 (`delete_files` of both backends): issue one
remove call per entry of `file_paths`, in order; the returned list is the
sequence of source locators passed to `os.remove` / `adb shell rm`. -/
def delete_files : List String → List String
  | [] => []
  | path :: file_paths => path :: delete_files file_paths

/-- Caller-visible result of one completed run of `main` (lines 414-456). -/
structure RunResult where
  outcomes : List TransferOutcome
  bytesWritten : Int
  verified : List String
  failed : List String
  deleteCalls : List String
deriving DecidableEq, Repr

/-- How a run of `main` past the commence prompt ends. -/
inductive RunOutcome where
  | no_files
  | cancelled_space
  | completed (res : RunResult)
deriving DecidableEq, Repr

/-- Lines 420-456 of `main`, from the commence prompt onwards, for an already
enumerated catalog `media_files`:  abort when no files were found; run the
space check and abort when it fails and the user declines to continue
(`continueDespiteShortage` is the prompt answer); otherwise copy — the
`try/finally` of lines 440-446 means an interruption after `k` candidates
(`interruptedAfter = some k`) still falls through to verification — then
verify the full original catalog, and issue deletions for the verified
set when it is nonempty and the user confirms. -/
def main_run (destination : String) (fetch : FS → Candidate → FetchResult)
    (elapsed : Candidate → ℚ) (fs0 : FS) (media_files : List Candidate)
    (free : Option Int) (continueDespiteShortage : Bool) (confirmDelete : Bool)
    (interruptedAfter : Option Nat) : RunOutcome :=
  if media_files = [] then RunOutcome.no_files
  else
    let total_size := (media_files.map (fun c => c.size)).sum
    if ¬ (DeviceBackup.check_disk_space free total_size).1 ∧ ¬ continueDespiteShortage then
      RunOutcome.cancelled_space
    else
      let processed := match interruptedAfter with
        | none => media_files
        | some k => media_files.take k
      let r := copy_files destination fetch elapsed fs0 processed
      let vf := DeviceBackup.verify_files destination r.fs media_files
      let deleteCalls := if vf.1 ≠ [] ∧ confirmDelete then delete_files vf.1 else []
      RunOutcome.completed ⟨r.outcomes, r.bytesWritten, vf.1, vf.2, deleteCalls⟩

/-! ### Order-theoretic facts about the code-point comparison -/

theorem pyStrLt_irrefl : ∀ x, pyStrLt x x = false
  | [] => rfl
  | _ :: as => by simp [pyStrLt, pyStrLt_irrefl as]

theorem pyStrLt_trans : ∀ x y z, pyStrLt x y = true → pyStrLt y z = true →
    pyStrLt x z = true
  | x, y, [] => by intro _ h2; cases y <;> simp [pyStrLt] at h2
  | [], y, _ :: _ => by intro _ _; simp [pyStrLt]
  | _ :: _, [], _ :: _ => by intro h1 _; simp [pyStrLt] at h1
  | a :: as, b :: bs, c :: cs => by
    intro h1 h2
    simp only [pyStrLt] at h1 h2 ⊢
    split_ifs at h1 h2 ⊢ <;>
      first
        | rfl
        | omega
        | exact pyStrLt_trans as bs cs h1 h2

theorem pyStrLt_lt_of_lt_of_nlt : ∀ x y z, pyStrLt z x = true → pyStrLt z y = false →
    pyStrLt y x = true
  | [], y, z => by intro h1 _; cases z <;> simp [pyStrLt] at h1
  | _ :: _, [], _ => by intro _ _; simp [pyStrLt]
  | a :: as, b :: bs, [] => by intro _ h2; simp [pyStrLt] at h2
  | a :: as, b :: bs, c :: cs => by
    intro h1 h2
    simp only [pyStrLt] at h1 h2 ⊢
    split_ifs at h1 h2 ⊢ <;>
      first
        | rfl
        | omega
        | exact pyStrLt_lt_of_lt_of_nlt as bs cs h1 h2

theorem pyStrLt_eq_of_nlt_nlt : ∀ x y, pyStrLt x y = false → pyStrLt y x = false → x = y
  | [], [] => by intro _ _; rfl
  | [], _ :: _ => by intro h1 _; simp [pyStrLt] at h1
  | _ :: _, [] => by intro _ h2; simp [pyStrLt] at h2
  | a :: as, b :: bs => by
    intro h1 h2
    simp only [pyStrLt] at h1 h2
    split_ifs at h1 h2 <;>
      first
        | omega
        | (have h3 : a.toNat = b.toNat := by omega
           have hc : a = b := Char.ext (UInt32.ext h3)
           have ht := pyStrLt_eq_of_nlt_nlt as bs h1 h2
           simp_all)

theorem pyStrLt_asymm {x y : List Char} (h : pyStrLt x y = true) : pyStrLt y x = false := by
  by_contra h'
  have h'' : pyStrLt y x = true := by
    cases hyx : pyStrLt y x
    · exact absurd hyx h'
    · rfl
  have := pyStrLt_trans x y x h h''
  simp [pyStrLt_irrefl] at this

instance : IsTotal Candidate file_name_le :=
  ⟨fun a b => by
    unfold file_name_le
    cases h : pyStrLt b.file_name.data a.file_name.data
    · exact Or.inl rfl
    · exact Or.inr (pyStrLt_asymm h)⟩

instance : IsTrans Candidate file_name_le :=
  ⟨fun a b c h1 h2 => by
    unfold file_name_le at h1 h2 ⊢
    by_contra h'
    have h'' : pyStrLt c.file_name.data a.file_name.data = true := by
      cases hca : pyStrLt c.file_name.data a.file_name.data
      · exact absurd hca h'
      · rfl
    exact absurd (pyStrLt_lt_of_lt_of_nlt _ _ _ h'' h2) (by simp [h1])⟩

/-- Strict version of `file_name_le`. -/
def file_name_lt (a b : Candidate) : Prop :=
  pyStrLt a.file_name.data b.file_name.data = true

instance : IsAntisymm Candidate file_name_lt :=
  ⟨fun a b h1 h2 => absurd h2 (by simp [file_name_lt, pyStrLt_asymm h1])⟩

theorem sorted_lt_of_sorted_le {l : List Candidate} (hs : List.Sorted file_name_le l)
    (hn : (l.map (fun c => c.file_name)).Nodup) : List.Sorted file_name_lt l := by
  have hn' : List.Pairwise (fun a b : Candidate => a.file_name ≠ b.file_name) l :=
    List.pairwise_map.mp hn
  refine (hs.and hn').imp ?_
  rintro a b ⟨hle, hne⟩
  cases h : pyStrLt a.file_name.data b.file_name.data
  · exact absurd (congrArg String.mk (pyStrLt_eq_of_nlt_nlt _ _ h hle)) hne
  · exact h

/-- C3: the Catalog produced by enumeration is sorted by fileName ascending,
and (for outputs with pairwise-distinct file names) is the same regardless of
the order in which the underlying walk returned the items. -/
theorem catalog_ordering (walk walk' : List iPhoneBackup.WalkItem) (stdout : String)
    (stat : String → Option String) (hperm : walk.Perm walk')
    (hnd : ((iPhoneBackup.find_media_files walk).map (fun c => c.file_name)).Nodup) :
    List.Sorted file_name_le (iPhoneBackup.find_media_files walk)
    ∧ List.Sorted file_name_le (AndroidBackup.find_media_files stdout stat)
    ∧ iPhoneBackup.find_media_files walk = iPhoneBackup.find_media_files walk' := by
  refine ⟨List.sorted_insertionSort file_name_le _, List.sorted_insertionSort file_name_le _, ?_⟩
  have hp : (iPhoneBackup.find_media_files walk).Perm (iPhoneBackup.find_media_files walk') := by
    unfold iPhoneBackup.find_media_files
    exact (List.perm_insertionSort _ _).trans ((hperm.filterMap _).trans
      (List.perm_insertionSort _ _).symm)
  have hnd' : ((iPhoneBackup.find_media_files walk').map (fun c => c.file_name)).Nodup :=
    (hp.map _).nodup_iff.mp hnd
  exact List.eq_of_perm_of_sorted hp
    (sorted_lt_of_sorted_le (List.sorted_insertionSort file_name_le _) hnd)
    (sorted_lt_of_sorted_le (List.sorted_insertionSort file_name_le _) hnd')

theorem catalog_ordering_witness :
    List.Sorted file_name_le (iPhoneBackup.find_media_files
      [⟨"/DCIM/100APPLE", "b.mp4", some 1⟩, ⟨"/DCIM/100APPLE", "a.mov", some 2⟩])
    ∧ iPhoneBackup.find_media_files
        [⟨"/DCIM/100APPLE", "b.mp4", some 1⟩, ⟨"/DCIM/100APPLE", "a.mov", some 2⟩]
      = iPhoneBackup.find_media_files
        [⟨"/DCIM/100APPLE", "a.mov", some 2⟩, ⟨"/DCIM/100APPLE", "b.mp4", some 1⟩]
    ∧ (iPhoneBackup.find_media_files
        [⟨"/DCIM/100APPLE", "b.mp4", some 1⟩, ⟨"/DCIM/100APPLE", "a.mov", some 2⟩]).map
          (fun c => c.file_name) = ["a.mov", "b.mp4"] :=
  ⟨(catalog_ordering
      [⟨"/DCIM/100APPLE", "b.mp4", some 1⟩, ⟨"/DCIM/100APPLE", "a.mov", some 2⟩]
      [⟨"/DCIM/100APPLE", "a.mov", some 2⟩, ⟨"/DCIM/100APPLE", "b.mp4", some 1⟩]
      "" (fun _ => none) (by decide) (by decide)).1,
   (catalog_ordering
      [⟨"/DCIM/100APPLE", "b.mp4", some 1⟩, ⟨"/DCIM/100APPLE", "a.mov", some 2⟩]
      [⟨"/DCIM/100APPLE", "a.mov", some 2⟩, ⟨"/DCIM/100APPLE", "b.mp4", some 1⟩]
      "" (fun _ => none) (by decide) (by decide)).2.2,
   by decide⟩

/-! ### Verification engine -/

theorem verify_files_eq (destination : String) (fs : FS) (files : List Candidate) :
    DeviceBackup.verify_files destination fs files =
      ((files.filter (fun c => decide (fs (os_path_join destination c.file_name) = some c.size))).map
          (fun c => c.source_path),
       (files.filter (fun c => !decide (fs (os_path_join destination c.file_name) = some c.size))).map
          (fun c => c.file_name)) := by
  induction files with
  | nil => rfl
  | cons c files ih =>
    simp only [DeviceBackup.verify_files, ih]
    by_cases h : fs (os_path_join destination c.file_name) = some c.size <;>
      simp [h, List.filter_cons]

theorem filter_not_length (p : Candidate → Bool) (l : List Candidate) :
    (l.filter p).length + (l.filter (fun c => !p c)).length = l.length := by
  induction l with
  | nil => rfl
  | cons c l ih =>
    cases h : p c <;> simp [List.filter_cons, h, ← ih] <;> omega

/-- C2: verification soundness and partition — `verified` consists exactly of
the source paths of the Candidates whose destination file exists with byte
length equal to `sizeBytes`, `failed` of the file names of the others, so
every Candidate lands in exactly one of the two lists; in particular a
Candidate satisfying the durability condition lands in `verified` and one
violating it lands in `failed`. -/
theorem verification_partition (destination : String) (fs : FS) (files : List Candidate) :
    (DeviceBackup.verify_files destination fs files).1 =
        (files.filter (fun c =>
          decide (fs (os_path_join destination c.file_name) = some c.size))).map
            (fun c => c.source_path)
    ∧ (DeviceBackup.verify_files destination fs files).2 =
        (files.filter (fun c =>
          !decide (fs (os_path_join destination c.file_name) = some c.size))).map
            (fun c => c.file_name)
    ∧ (DeviceBackup.verify_files destination fs files).1.length
        + (DeviceBackup.verify_files destination fs files).2.length = files.length
    ∧ ∀ c ∈ files,
        (fs (os_path_join destination c.file_name) = some c.size →
          c.source_path ∈ (DeviceBackup.verify_files destination fs files).1)
        ∧ (fs (os_path_join destination c.file_name) ≠ some c.size →
          c.file_name ∈ (DeviceBackup.verify_files destination fs files).2) := by
  have he := verify_files_eq destination fs files
  refine ⟨by rw [he], by rw [he], ?_, ?_⟩
  · rw [he]
    simpa using filter_not_length _ files
  · intro c hc
    constructor
    · intro h
      rw [he]
      exact List.mem_map_of_mem _ (List.mem_filter.mpr ⟨hc, by simpa using h⟩)
    · intro h
      rw [he]
      exact List.mem_map_of_mem _ (List.mem_filter.mpr ⟨hc, by simpa using h⟩)

/-- Witness for C2: with a destination holding `a.mov` at its recorded size
and nothing else, `a.mov`'s source lands in `verified` and `b.mp4` lands in
`failed`. -/
theorem verification_partition_witness :
    ((⟨"/s/a.mov", "a.mov", 3⟩ : Candidate).source_path ∈
      (DeviceBackup.verify_files "/d" (fun p => if p = "/d/a.mov" then some 3 else none)
        [⟨"/s/a.mov", "a.mov", 3⟩, ⟨"/s/b.mp4", "b.mp4", 5⟩]).1)
    ∧ ((⟨"/s/b.mp4", "b.mp4", 5⟩ : Candidate).file_name ∈
      (DeviceBackup.verify_files "/d" (fun p => if p = "/d/a.mov" then some 3 else none)
        [⟨"/s/a.mov", "a.mov", 3⟩, ⟨"/s/b.mp4", "b.mp4", 5⟩]).2) :=
  ⟨((verification_partition "/d" (fun p => if p = "/d/a.mov" then some 3 else none)
      [⟨"/s/a.mov", "a.mov", 3⟩, ⟨"/s/b.mp4", "b.mp4", 5⟩]).2.2.2
      ⟨"/s/a.mov", "a.mov", 3⟩ (by decide)).1 (by decide),
   ((verification_partition "/d" (fun p => if p = "/d/a.mov" then some 3 else none)
      [⟨"/s/a.mov", "a.mov", 3⟩, ⟨"/s/b.mp4", "b.mp4", 5⟩]).2.2.2
      ⟨"/s/b.mp4", "b.mp4", 5⟩ (by decide)).2 (by decide)⟩

/-! ### Catalog builder: filtering and fault tolerance -/

/-- C4: an enumerated item becomes a Candidate only if its lowered file-name
extension is in the fixed allow-list (on both backends), and every accessible
allow-listed item of the walk is materialized as a Candidate. -/
theorem extension_filtering (walk : List iPhoneBackup.WalkItem) (stdout : String)
    (stat : String → Option String) :
    (∀ c ∈ iPhoneBackup.find_media_files walk,
        pyLower (splitext_ext c.file_name) ∈ SUPPORTED_EXTENSIONS)
    ∧ (∀ c ∈ AndroidBackup.find_media_files stdout stat,
        pyLower (splitext_ext c.file_name) ∈ SUPPORTED_EXTENSIONS)
    ∧ (∀ w ∈ walk, pyLower (splitext_ext w.file) ∈ SUPPORTED_EXTENSIONS →
        ∀ n, w.size_result = some n →
          (⟨os_path_join w.root w.file, w.file, n⟩ : Candidate) ∈
            iPhoneBackup.find_media_files walk) := by
  refine ⟨?_, ?_, ?_⟩
  · intro c hc
    rw [iPhoneBackup.find_media_files, List.mem_insertionSort] at hc
    obtain ⟨w, hw, hfw⟩ := List.mem_filterMap.mp hc
    by_cases hext : pyLower (splitext_ext w.file) ∈ SUPPORTED_EXTENSIONS
    · rw [if_pos hext] at hfw
      cases hsz : w.size_result with
      | none => rw [hsz] at hfw; cases hfw
      | some n =>
        rw [hsz] at hfw
        cases hfw
        exact hext
    · rw [if_neg hext] at hfw
      cases hfw
  · intro c hc
    rw [AndroidBackup.find_media_files, List.mem_insertionSort] at hc
    obtain ⟨p, hp, hfp⟩ := List.mem_filterMap.mp hc
    dsimp only at hfp
    split at hfp
    next => cases hfp
    next =>
      split at hfp
      next =>
        split at hfp
        next =>
          split at hfp
          next => cases hfp; assumption
          next => cases hfp
        next => cases hfp
      next => cases hfp
  · intro w hw hext n hn
    rw [iPhoneBackup.find_media_files, List.mem_insertionSort]
    refine List.mem_filterMap.mpr ⟨w, hw, ?_⟩
    rw [if_pos hext, hn]

/-- Witness for C4: `clip.MP4` is materialized, `notes.txt` is not. -/
theorem extension_filtering_witness :
    ((⟨"/DCIM/100APPLE/clip.MP4", "clip.MP4", 100⟩ : Candidate) ∈
      iPhoneBackup.find_media_files
        [⟨"/DCIM/100APPLE", "clip.MP4", some 100⟩, ⟨"/DCIM/100APPLE", "notes.txt", some 5⟩])
    ∧ (iPhoneBackup.find_media_files
        [⟨"/DCIM/100APPLE", "clip.MP4", some 100⟩, ⟨"/DCIM/100APPLE", "notes.txt", some 5⟩]).map
          (fun c => c.file_name) = ["clip.MP4"] :=
  ⟨(extension_filtering
      [⟨"/DCIM/100APPLE", "clip.MP4", some 100⟩, ⟨"/DCIM/100APPLE", "notes.txt", some 5⟩]
      "" (fun _ => none)).2.2
      ⟨"/DCIM/100APPLE", "clip.MP4", some 100⟩ (by decide) (by decide) 100 rfl,
   by decide⟩

theorem filterMap_filter_isSome (f : iPhoneBackup.WalkItem → Option Candidate)
    (hf : ∀ w, w.size_result = none → f w = none) :
    ∀ l : List iPhoneBackup.WalkItem,
      l.filterMap f = (l.filter (fun w => w.size_result.isSome)).filterMap f := by
  intro l
  induction l with
  | nil => rfl
  | cons w t ih =>
    cases hw : w.size_result with
    | none => simp [List.filter_cons, hw, List.filterMap_cons, hf w hw, ih]
    | some n => simp [List.filter_cons, hw, List.filterMap_cons, ih]

/-- C9: an item whose size cannot be read is excluded from the Catalog while
the scan continues over the remaining items: the iPhone walk result is
unchanged if the items with failed `os.path.getsize` are dropped up front,
and every Android Candidate's size comes from a successful, parseable
`stat` reply (so a failed or unparseable reply never yields a Candidate). -/
theorem enumeration_fault_tolerance (walk : List iPhoneBackup.WalkItem) (stdout : String)
    (stat : String → Option String) :
    iPhoneBackup.find_media_files walk
      = iPhoneBackup.find_media_files (walk.filter (fun w => w.size_result.isSome))
    ∧ ∀ c ∈ AndroidBackup.find_media_files stdout stat,
        ∃ reply, stat c.source_path = some reply ∧ pyInt? (pyStrip reply) = some c.size := by
  constructor
  · unfold iPhoneBackup.find_media_files
    exact congrArg _ (filterMap_filter_isSome _
      (fun w hw => by simp only [hw]; split <;> rfl) walk)
  · intro c hc
    rw [AndroidBackup.find_media_files, List.mem_insertionSort] at hc
    obtain ⟨p, hp, hfp⟩ := List.mem_filterMap.mp hc
    dsimp only at hfp
    split at hfp
    next => cases hfp
    next =>
      split at hfp
      next =>
        split at hfp
        next =>
          split at hfp
          next => cases hfp; exact ⟨_, by assumption, by assumption⟩
          next => cases hfp
        next => cases hfp
      next => cases hfp

/-- Witness for C9: a concrete Android Candidate has a parseable stat reply,
and an iPhone walk with one unreadable item yields the same Catalog as the
walk with that item dropped. -/
theorem enumeration_fault_tolerance_witness :
    ((fun p => if p = "/sdcard/DCIM/a.mov" then some "3" else none)
          ((⟨"/sdcard/DCIM/a.mov", "a.mov", 3⟩ : Candidate).source_path)).bind
        (fun reply => pyInt? (pyStrip reply))
      = some (⟨"/sdcard/DCIM/a.mov", "a.mov", 3⟩ : Candidate).size
    ∧ iPhoneBackup.find_media_files
        [⟨"/DCIM", "ok.mov", some 4⟩, ⟨"/DCIM", "broken.mov", none⟩]
      = iPhoneBackup.find_media_files
        ([⟨"/DCIM", "ok.mov", some 4⟩, ⟨"/DCIM", "broken.mov", none⟩].filter
          (fun w => w.size_result.isSome))
    ∧ (iPhoneBackup.find_media_files
        [⟨"/DCIM", "ok.mov", some 4⟩, ⟨"/DCIM", "broken.mov", none⟩]).map
          (fun c => c.file_name) = ["ok.mov"] :=
  ⟨by
    obtain ⟨reply, hst, hpi⟩ := (enumeration_fault_tolerance
      [⟨"/DCIM", "ok.mov", some 4⟩, ⟨"/DCIM", "broken.mov", none⟩]
      "/sdcard/DCIM/a.mov\n/sdcard/DCIM/bad.mp4"
      (fun p => if p = "/sdcard/DCIM/a.mov" then some "3" else none)).2
      ⟨"/sdcard/DCIM/a.mov", "a.mov", 3⟩ (by decide)
    dsimp only at hst ⊢
    rw [hst]
    exact hpi,
   (enumeration_fault_tolerance
      [⟨"/DCIM", "ok.mov", some 4⟩, ⟨"/DCIM", "broken.mov", none⟩]
      "/sdcard/DCIM/a.mov\n/sdcard/DCIM/bad.mp4"
      (fun p => if p = "/sdcard/DCIM/a.mov" then some "3" else none)).1,
   by decide⟩

/-! ### Transfer engine -/

/-- C5: idempotent resume — over a destination where every Candidate's file
already exists with its recorded byte length, the copy pass emits `Skipped`
for every Candidate, writes zero bytes, attempts no fetch, and leaves the
destination state unchanged. -/
theorem idempotent_resume (destination : String) (fetch : FS → Candidate → FetchResult)
    (elapsed : Candidate → ℚ) (fs : FS) (files : List Candidate)
    (h : ∀ c ∈ files, fs (os_path_join destination c.file_name) = some c.size) :
    copy_files destination fetch elapsed fs files
      = ⟨fs, files.map (fun _ => TransferOutcome.Skipped), 0, []⟩ := by
  induction files with
  | nil => rfl
  | cons c files ih =>
    have hc := h c (List.mem_cons_self c files)
    simp [copy_files, if_pos hc, ih (fun d hd => h d (List.mem_cons_of_mem c hd))]

/-- Witness for C5: a fully populated two-file destination yields two
`Skipped` outcomes, zero bytes written, no fetch calls. -/
theorem idempotent_resume_witness :
    copy_files "/d" (fun _ _ => ⟨true, none, 0⟩) (fun _ => 1)
      (fun p => if p = "/d/a.mov" then some 3 else if p = "/d/b.mp4" then some 5 else none)
      [⟨"/s/a.mov", "a.mov", 3⟩, ⟨"/s/b.mp4", "b.mp4", 5⟩]
      = ⟨(fun p => if p = "/d/a.mov" then some 3 else if p = "/d/b.mp4" then some 5 else none),
         [TransferOutcome.Skipped, TransferOutcome.Skipped], 0, []⟩ :=
  idempotent_resume "/d" (fun _ _ => ⟨true, none, 0⟩) (fun _ => 1)
    (fun p => if p = "/d/a.mov" then some 3 else if p = "/d/b.mp4" then some 5 else none)
    [⟨"/s/a.mov", "a.mov", 3⟩, ⟨"/s/b.mp4", "b.mp4", 5⟩] (by decide)

/-- C6: throughput division guard — a successful copy reports
`Copied (speed_mbps sizeBytes elapsed)`; when the elapsed time is zero the
reported throughput is zero (no division fault), and when it is positive it
equals `sizeBytes / elapsed` in the code's MB/s unit
(`speed * elapsed * 2^20 = sizeBytes`). -/
theorem throughput_division_guard (destination : String) (fetch : FS → Candidate → FetchResult)
    (elapsed : Candidate → ℚ) (fs : FS) (c : Candidate) (files : List Candidate)
    (hskip : ¬ fs (os_path_join destination c.file_name) = some c.size)
    (hok : (fetch fs c).ok = true) :
    (copy_files destination fetch elapsed fs (c :: files)).outcomes.head?
        = some (TransferOutcome.Copied (speed_mbps c.size (elapsed c)))
    ∧ (elapsed c = 0 → speed_mbps c.size (elapsed c) = 0)
    ∧ (0 < elapsed c →
        speed_mbps c.size (elapsed c) * elapsed c * (1024 * 1024) = (c.size : ℚ)) := by
  refine ⟨?_, ?_, ?_⟩
  · simp [copy_files, hskip, hok]
  · intro h0
    simp [speed_mbps, h0]
  · intro hpos
    rw [speed_mbps]
    rw [if_pos hpos]
    have h1 : elapsed c ≠ 0 := ne_of_gt hpos
    field_simp
    ring

/-- Witness for C6: a copy measured at zero elapsed time reports a
throughput of zero. -/
theorem throughput_division_guard_witness :
    (copy_files "/d" (fun _ _ => ⟨true, some 7, 7⟩) (fun _ => 0)
        (fun _ => none) [⟨"/s/a.mov", "a.mov", 7⟩]).outcomes.head?
      = some (TransferOutcome.Copied (speed_mbps 7 0))
    ∧ speed_mbps 7 0 = 0 :=
  ⟨(throughput_division_guard "/d" (fun _ _ => ⟨true, some 7, 7⟩) (fun _ => 0)
      (fun _ => none) ⟨"/s/a.mov", "a.mov", 7⟩ [] (by decide) rfl).1,
   (throughput_division_guard "/d" (fun _ _ => ⟨true, some 7, 7⟩) (fun _ => 0)
      (fun _ => none) ⟨"/s/a.mov", "a.mov", 7⟩ [] (by decide) rfl).2.1 rfl⟩

/-- C10: skip implies verified — the copy loop's skip condition is the very
condition under which verification verifies a Candidate: the head outcome is
`Skipped` iff the destination file exists with matching byte length, and a
Candidate satisfying that condition, over any later destination state that
agrees at its destination path, lands in the `verified` set. -/
theorem skip_implies_verified (destination : String) (fetch : FS → Candidate → FetchResult)
    (elapsed : Candidate → ℚ) (fs fs' : FS) (c : Candidate) (rest files : List Candidate) :
    ((copy_files destination fetch elapsed fs (c :: rest)).outcomes.head?
        = some TransferOutcome.Skipped
      ↔ fs (os_path_join destination c.file_name) = some c.size)
    ∧ (fs (os_path_join destination c.file_name) = some c.size →
       fs' (os_path_join destination c.file_name) = fs (os_path_join destination c.file_name) →
       c ∈ files →
       c.source_path ∈ (DeviceBackup.verify_files destination fs' files).1) := by
  constructor
  · constructor
    · intro hh
      by_contra hcond
      simp only [copy_files, if_neg hcond] at hh
      cases hok : (fetch fs c).ok <;> simp [hok] at hh
    · intro hcond
      simp [copy_files, if_pos hcond]
  · intro hcond hunch hc
    have hcond' : fs' (os_path_join destination c.file_name) = some c.size := by
      rw [hunch]; exact hcond
    rw [show (DeviceBackup.verify_files destination fs' files).1 = _ from
      congrArg Prod.fst (verify_files_eq destination fs' files)]
    exact List.mem_map_of_mem _ (List.mem_filter.mpr ⟨hc, by simpa using hcond'⟩)

/-- Witness for C10: a Candidate skipped because its destination file is
present at the right size is verified over the unchanged destination. -/
theorem skip_implies_verified_witness :
    ((copy_files "/d" (fun _ _ => ⟨true, none, 0⟩) (fun _ => 1)
        (fun p => if p = "/d/a.mov" then some 3 else none)
        [⟨"/s/a.mov", "a.mov", 3⟩]).outcomes.head? = some TransferOutcome.Skipped
      ↔ (fun p => if p = "/d/a.mov" then some 3 else none) (os_path_join "/d" "a.mov")
          = some (3 : Int))
    ∧ (⟨"/s/a.mov", "a.mov", 3⟩ : Candidate).source_path ∈
        (DeviceBackup.verify_files "/d" (fun p => if p = "/d/a.mov" then some 3 else none)
          [⟨"/s/a.mov", "a.mov", 3⟩]).1 :=
  ⟨(skip_implies_verified "/d" (fun _ _ => ⟨true, none, 0⟩) (fun _ => 1)
      (fun p => if p = "/d/a.mov" then some 3 else none)
      (fun p => if p = "/d/a.mov" then some 3 else none)
      ⟨"/s/a.mov", "a.mov", 3⟩ [] [⟨"/s/a.mov", "a.mov", 3⟩]).1,
   (skip_implies_verified "/d" (fun _ _ => ⟨true, none, 0⟩) (fun _ => 1)
      (fun p => if p = "/d/a.mov" then some 3 else none)
      (fun p => if p = "/d/a.mov" then some 3 else none)
      ⟨"/s/a.mov", "a.mov", 3⟩ [] [⟨"/s/a.mov", "a.mov", 3⟩]).2
      (by decide) rfl (by decide)⟩

/-! ### Orchestration -/

theorem delete_files_eq : ∀ l : List String, delete_files l = l
  | [] => rfl
  | p :: l => by rw [delete_files, delete_files_eq l]

theorem copy_files_fetchCalls_sublist (destination : String) (fetch : FS → Candidate → FetchResult)
    (elapsed : Candidate → ℚ) : ∀ (files : List Candidate) (fs : FS),
    (copy_files destination fetch elapsed fs files).fetchCalls.Sublist
      (files.map (fun c => c.source_path))
  | [], fs => by simp [copy_files]
  | c :: files, fs => by
    by_cases h : fs (os_path_join destination c.file_name) = some c.size
    · simp only [copy_files, if_pos h, List.map_cons]
      exact (copy_files_fetchCalls_sublist destination fetch elapsed files fs).cons _
    · simp only [copy_files, if_neg h, List.map_cons]
      exact (copy_files_fetchCalls_sublist destination fetch elapsed files _).cons₂ _

/-- C8: fault isolation — the copy pass yields one outcome per Candidate of
the catalog it was given; a Candidate whose fetch fails gets a `Failed`
outcome, exactly one fetch attempt, and the loop continues over the remaining
Candidates from the post-failure state; with distinct source paths no source
is fetched twice (no retry); and any completed run verifies the full original
catalog, however far the (possibly interrupted) transfer pass got. -/
theorem fault_isolation (destination : String) (fetch : FS → Candidate → FetchResult)
    (elapsed : Candidate → ℚ) :
    (∀ (fs : FS) (files : List Candidate),
        (copy_files destination fetch elapsed fs files).outcomes.length = files.length)
    ∧ (∀ (fs : FS) (c : Candidate) (files : List Candidate),
        ¬ fs (os_path_join destination c.file_name) = some c.size →
        (fetch fs c).ok = false →
        copy_files destination fetch elapsed fs (c :: files)
          = { fs := (copy_files destination fetch elapsed
                (fsUpdate fs (os_path_join destination c.file_name) (fetch fs c).destAfter)
                files).fs,
              outcomes := TransferOutcome.Failed ::
                (copy_files destination fetch elapsed
                  (fsUpdate fs (os_path_join destination c.file_name) (fetch fs c).destAfter)
                  files).outcomes,
              bytesWritten := (fetch fs c).bytes +
                (copy_files destination fetch elapsed
                  (fsUpdate fs (os_path_join destination c.file_name) (fetch fs c).destAfter)
                  files).bytesWritten,
              fetchCalls := c.source_path ::
                (copy_files destination fetch elapsed
                  (fsUpdate fs (os_path_join destination c.file_name) (fetch fs c).destAfter)
                  files).fetchCalls })
    ∧ (∀ (fs : FS) (files : List Candidate),
        (files.map (fun c => c.source_path)).Nodup →
        ∀ s, (copy_files destination fetch elapsed fs files).fetchCalls.count s ≤ 1)
    ∧ (∀ (fs0 : FS) (media_files : List Candidate) (free : Option Int)
        (cds cd : Bool) (k : Option Nat) (res : RunResult),
        main_run destination fetch elapsed fs0 media_files free cds cd k
          = RunOutcome.completed res →
        res.verified.length + res.failed.length = media_files.length) := by
  refine ⟨?_, ?_, ?_, ?_⟩
  · intro fs files
    induction files generalizing fs with
    | nil => rfl
    | cons c t ih =>
      by_cases h : fs (os_path_join destination c.file_name) = some c.size <;>
        simp [copy_files, h, ih]
  · intro fs c files hskip hfail
    simp [copy_files, hskip, hfail]
  · intro fs files hnd s
    exact le_trans
      ((copy_files_fetchCalls_sublist destination fetch elapsed files fs).count_le s)
      (List.nodup_iff_count_le_one.mp hnd s)
  · intro fs0 media_files free cds cd k res hrun
    unfold main_run at hrun
    split at hrun
    next => cases hrun
    next =>
      dsimp only at hrun
      split at hrun
      next => cases hrun
      next =>
        cases hrun
        rw [show (DeviceBackup.verify_files destination
            (copy_files destination fetch elapsed fs0
              (match k with | none => media_files | some j => media_files.take j)).fs
            media_files) = _ from verify_files_eq destination _ media_files]
        simpa using filter_not_length _ media_files

/-- Witness for C8: with an always-failing transport over a two-file catalog,
both Candidates get outcomes, the failed head continues into the tail, no
source is fetched twice, and the completed run verifies both Candidates. -/
theorem fault_isolation_witness :
    (copy_files "/d" (fun _ _ => ⟨false, none, 0⟩) (fun _ => 1) (fun _ => none)
        [⟨"/s/a.mov", "a.mov", 3⟩, ⟨"/s/b.mp4", "b.mp4", 5⟩]).outcomes.length = 2
    ∧ copy_files "/d" (fun _ _ => ⟨false, none, 0⟩) (fun _ => 1) (fun _ => none)
        [⟨"/s/a.mov", "a.mov", 3⟩, ⟨"/s/b.mp4", "b.mp4", 5⟩]
        = { fs := (copy_files "/d" (fun _ _ => ⟨false, none, 0⟩) (fun _ => 1)
              (fsUpdate (fun _ => none) (os_path_join "/d" "a.mov") none)
              [⟨"/s/b.mp4", "b.mp4", 5⟩]).fs,
            outcomes := TransferOutcome.Failed ::
              (copy_files "/d" (fun _ _ => ⟨false, none, 0⟩) (fun _ => 1)
                (fsUpdate (fun _ => none) (os_path_join "/d" "a.mov") none)
                [⟨"/s/b.mp4", "b.mp4", 5⟩]).outcomes,
            bytesWritten := 0 +
              (copy_files "/d" (fun _ _ => ⟨false, none, 0⟩) (fun _ => 1)
                (fsUpdate (fun _ => none) (os_path_join "/d" "a.mov") none)
                [⟨"/s/b.mp4", "b.mp4", 5⟩]).bytesWritten,
            fetchCalls := "/s/a.mov" ::
              (copy_files "/d" (fun _ _ => ⟨false, none, 0⟩) (fun _ => 1)
                (fsUpdate (fun _ => none) (os_path_join "/d" "a.mov") none)
                [⟨"/s/b.mp4", "b.mp4", 5⟩]).fetchCalls }
    ∧ (copy_files "/d" (fun _ _ => ⟨false, none, 0⟩) (fun _ => 1) (fun _ => none)
        [⟨"/s/a.mov", "a.mov", 3⟩, ⟨"/s/b.mp4", "b.mp4", 5⟩]).fetchCalls.count "/s/a.mov" ≤ 1
    ∧ ((⟨[TransferOutcome.Failed, TransferOutcome.Failed], 0, [], ["a.mov", "b.mp4"], []⟩ :
          RunResult).verified.length
        + (⟨[TransferOutcome.Failed, TransferOutcome.Failed], 0, [], ["a.mov", "b.mp4"], []⟩ :
          RunResult).failed.length = 2) :=
  ⟨(fault_isolation "/d" (fun _ _ => ⟨false, none, 0⟩) (fun _ => 1)).1 (fun _ => none)
      [⟨"/s/a.mov", "a.mov", 3⟩, ⟨"/s/b.mp4", "b.mp4", 5⟩],
   (fault_isolation "/d" (fun _ _ => ⟨false, none, 0⟩) (fun _ => 1)).2.1 (fun _ => none)
      ⟨"/s/a.mov", "a.mov", 3⟩ [⟨"/s/b.mp4", "b.mp4", 5⟩] (by decide) rfl,
   (fault_isolation "/d" (fun _ _ => ⟨false, none, 0⟩) (fun _ => 1)).2.2.1 (fun _ => none)
      [⟨"/s/a.mov", "a.mov", 3⟩, ⟨"/s/b.mp4", "b.mp4", 5⟩] (by decide) "/s/a.mov",
   (fault_isolation "/d" (fun _ _ => ⟨false, none, 0⟩) (fun _ => 1)).2.2.2 (fun _ => none)
      [⟨"/s/a.mov", "a.mov", 3⟩, ⟨"/s/b.mp4", "b.mp4", 5⟩] (some 100) true true none
      ⟨[TransferOutcome.Failed, TransferOutcome.Failed], 0, [], ["a.mov", "b.mp4"], []⟩
      (by decide)⟩

/-- C7: Space Preflight verdict — with `requiredBytes` the sum of the
Catalog's sizes, the check returns `False` exactly when the free-space
reading is below `requiredBytes` (reporting the shortage magnitude), `True`
when the reading itself raised; and with the caller electing to continue, a
run over a nonempty catalog always reaches transfer and completes, whatever
the verdict was. -/
theorem space_preflight (free : Option Int) (media_files : List Candidate)
    (destination : String) (fetch : FS → Candidate → FetchResult) (elapsed : Candidate → ℚ) :
    (∀ a, free = some a →
        ((DeviceBackup.check_disk_space free ((media_files.map (fun c => c.size)).sum)).1 = false
          ↔ a < (media_files.map (fun c => c.size)).sum))
    ∧ (∀ a, free = some a → a < (media_files.map (fun c => c.size)).sum →
        (DeviceBackup.check_disk_space free ((media_files.map (fun c => c.size)).sum)).2
          = some ((media_files.map (fun c => c.size)).sum - a))
    ∧ (free = none →
        DeviceBackup.check_disk_space free ((media_files.map (fun c => c.size)).sum)
          = (true, none))
    ∧ (∀ (fs0 : FS) (cd : Bool) (k : Option Nat), media_files ≠ [] →
        ∃ res, main_run destination fetch elapsed fs0 media_files free true cd k
          = RunOutcome.completed res) := by
  refine ⟨?_, ?_, ?_, ?_⟩
  · intro a ha
    subst ha
    by_cases hlt : a < (media_files.map (fun c => c.size)).sum <;>
      simp [DeviceBackup.check_disk_space, hlt]
  · intro a ha hlt
    subst ha
    simp [DeviceBackup.check_disk_space, hlt]
  · intro hf
    subst hf
    rfl
  · intro fs0 cd k hne
    cases hr : main_run destination fetch elapsed fs0 media_files free true cd k with
    | completed res => exact ⟨res, rfl⟩
    | no_files =>
      exfalso
      unfold main_run at hr
      rw [if_neg hne] at hr
      dsimp only at hr
      split at hr
      next h => exact h.2 rfl
      next => cases hr
    | cancelled_space =>
      exfalso
      unfold main_run at hr
      rw [if_neg hne] at hr
      dsimp only at hr
      split at hr
      next h => exact h.2 rfl
      next => cases hr

/-- Witness for C7: 10 free bytes against a 100-byte catalog gives verdict
`False` with shortage 90, a failed reading gives `True`, and the run still
completes when the caller continues. -/
theorem space_preflight_witness :
    ((DeviceBackup.check_disk_space (some 10)
        (([(⟨"/s/a.mov", "a.mov", 100⟩ : Candidate)].map (fun c => c.size)).sum)).1 = false)
    ∧ (DeviceBackup.check_disk_space (some 10)
        (([(⟨"/s/a.mov", "a.mov", 100⟩ : Candidate)].map (fun c => c.size)).sum)).2 = some 90
    ∧ DeviceBackup.check_disk_space none
        (([(⟨"/s/a.mov", "a.mov", 100⟩ : Candidate)].map (fun c => c.size)).sum) = (true, none)
    ∧ main_run "/d" (fun _ _ => ⟨false, none, 0⟩) (fun _ => 1) (fun _ => none)
        [⟨"/s/a.mov", "a.mov", 100⟩] (some 10) true true none ≠ RunOutcome.cancelled_space :=
  ⟨(space_preflight (some 10) [⟨"/s/a.mov", "a.mov", 100⟩] "/d"
      (fun _ _ => ⟨false, none, 0⟩) (fun _ => 1)).1 10 rfl |>.mpr (by decide),
   (space_preflight (some 10) [⟨"/s/a.mov", "a.mov", 100⟩] "/d"
      (fun _ _ => ⟨false, none, 0⟩) (fun _ => 1)).2.1 10 rfl (by decide),
   (space_preflight none [⟨"/s/a.mov", "a.mov", 100⟩] "/d"
      (fun _ _ => ⟨false, none, 0⟩) (fun _ => 1)).2.2.1 rfl,
   by
     intro hcon
     obtain ⟨res, hr⟩ := (space_preflight (some 10) [⟨"/s/a.mov", "a.mov", 100⟩] "/d"
       (fun _ _ => ⟨false, none, 0⟩) (fun _ => 1)).2.2.2 (fun _ => none) true none (by decide)
     rw [hcon] at hr
     cases hr⟩

/-- Helper: the deletion gate's input is always contained in the verified
list it was given. -/
theorem delete_subset_verified (verified : List String) (cd : Bool) :
    (if verified ≠ [] ∧ cd then delete_files verified else []) ⊆ verified := by
  split
  · rw [delete_files_eq]
    exact fun x h => h
  · exact List.nil_subset _

/-- Helper: with pairwise-distinct file names and source paths, a Candidate
whose file name failed verification cannot have its source path in the
verified list. -/
theorem failed_not_verified (destination : String) (fsF : FS) (media_files : List Candidate)
    (hndn : (media_files.map (fun c => c.file_name)).Nodup)
    (hnds : (media_files.map (fun c => c.source_path)).Nodup)
    (c : Candidate) (hc : c ∈ media_files)
    (hfail : c.file_name ∈ (DeviceBackup.verify_files destination fsF media_files).2)
    (hmem : c.source_path ∈ (DeviceBackup.verify_files destination fsF media_files).1) :
    False := by
  have he := verify_files_eq destination fsF media_files
  rw [he] at hfail hmem
  dsimp only at hfail hmem
  obtain ⟨cf, hcf, hcfname⟩ := List.mem_map.mp hfail
  obtain ⟨cv, hcv, hcvsrc⟩ := List.mem_map.mp hmem
  have hcf' := List.mem_filter.mp hcf
  have hcv' := List.mem_filter.mp hcv
  have hcfc : cf = c := List.inj_on_of_nodup_map hndn hcf'.1 hc hcfname
  have hcvc : cv = c := List.inj_on_of_nodup_map hnds hcv'.1 hc hcvsrc
  rw [hcfc] at hcf'
  rw [hcvc] at hcv'
  have h1 := hcf'.2
  have h2 := hcv'.2
  simp at h1 h2
  exact h1 h2

/-- C1: deletion containment — in every completed run the source locators
passed to the delete operation form a subset of the verified list, and (for
catalogs with pairwise-distinct file names and source paths, as produced by
a filesystem walk) a Candidate that fails verification never has a delete
call issued for its source locator. -/
theorem deletion_containment (destination : String) (fetch : FS → Candidate → FetchResult)
    (elapsed : Candidate → ℚ) (fs0 : FS) (media_files : List Candidate) (free : Option Int)
    (cds cd : Bool) (k : Option Nat) (res : RunResult)
    (hrun : main_run destination fetch elapsed fs0 media_files free cds cd k
      = RunOutcome.completed res) :
    res.deleteCalls ⊆ res.verified
    ∧ ((media_files.map (fun c => c.file_name)).Nodup →
       (media_files.map (fun c => c.source_path)).Nodup →
       ∀ c ∈ media_files, c.file_name ∈ res.failed → c.source_path ∉ res.deleteCalls) := by
  unfold main_run at hrun
  split at hrun
  next => cases hrun
  next =>
    dsimp only at hrun
    split at hrun
    next => cases hrun
    next =>
      cases hrun
      refine ⟨delete_subset_verified _ _, ?_⟩
      intro hndn hnds c hc hfail hdel
      exact failed_not_verified destination _ media_files hndn hnds c hc hfail
        (delete_subset_verified _ _ hdel)

/-- Witness for C1: in a run where `a.mov` verifies and `b.mp4` fails, the
delete calls are contained in the verified list and `b.mp4`'s source is not
deleted. -/
theorem deletion_containment_witness :
    ((⟨[TransferOutcome.Skipped, TransferOutcome.Failed], 0, ["/s/a.mov"], ["b.mp4"],
        ["/s/a.mov"]⟩ : RunResult).deleteCalls
      ⊆ (⟨[TransferOutcome.Skipped, TransferOutcome.Failed], 0, ["/s/a.mov"], ["b.mp4"],
        ["/s/a.mov"]⟩ : RunResult).verified)
    ∧ (⟨"/s/b.mp4", "b.mp4", 5⟩ : Candidate).source_path ∉
        (⟨[TransferOutcome.Skipped, TransferOutcome.Failed], 0, ["/s/a.mov"], ["b.mp4"],
          ["/s/a.mov"]⟩ : RunResult).deleteCalls :=
  ⟨(deletion_containment "/d" (fun _ _ => ⟨false, none, 0⟩) (fun _ => 1)
      (fun p => if p = "/d/a.mov" then some 3 else none)
      [⟨"/s/a.mov", "a.mov", 3⟩, ⟨"/s/b.mp4", "b.mp4", 5⟩] none true true none
      ⟨[TransferOutcome.Skipped, TransferOutcome.Failed], 0, ["/s/a.mov"], ["b.mp4"],
        ["/s/a.mov"]⟩ (by decide)).1,
   (deletion_containment "/d" (fun _ _ => ⟨false, none, 0⟩) (fun _ => 1)
      (fun p => if p = "/d/a.mov" then some 3 else none)
      [⟨"/s/a.mov", "a.mov", 3⟩, ⟨"/s/b.mp4", "b.mp4", 5⟩] none true true none
      ⟨[TransferOutcome.Skipped, TransferOutcome.Failed], 0, ["/s/a.mov"], ["b.mp4"],
        ["/s/a.mov"]⟩ (by decide)).2 (by decide) (by decide)
      ⟨"/s/b.mp4", "b.mp4", 5⟩ (by decide) (by decide)⟩
